import Mathlib

/-!
Verification of the wiki-wallpaper script (wiki-wallpaper.py).

The Python source is shallowly embedded: pure arithmetic is translated to
exact integer and rational arithmetic, the external collaborators (HTTP
session, PIL font metrics, PIL drawing primitives, BeautifulSoup extraction,
the OpenAI condensation call, sleeping) are parameters of the embedded
functions, and exceptions raised by those collaborators are explicit
outcome values handled exactly where the Python try/except blocks handle
them.
-/

set_option autoImplicit false

namespace WikiWallpaper

/-- Python int() applied to a real-valued expression: truncation toward
zero.  The floating point expressions of the source are modelled by exact
rational arithmetic. -/
def pyInt (q : ℚ) : ℤ := if 0 ≤ q then ⌊q⌋ else ⌈q⌉

/-! ## Layout geometry (create_wallpaper, lines 243-275)

border_size = int(screen_size[0] * 0.05);
content_width = screen_size[0] - 2 * border_size;
content_height = screen_size[1] - 2 * border_size;
desc_height = int(content_height * 0.20);
img_height = content_height - desc_height  (the image region height).
-/

def borderSize (sw : ℤ) : ℤ := pyInt ((sw : ℚ) * (5 / 100))

def contentWidth (sw : ℤ) : ℤ := sw - 2 * borderSize sw

def contentHeight (sw sh : ℤ) : ℤ := sh - 2 * borderSize sw

def descHeight (sw sh : ℤ) : ℤ := pyInt ((contentHeight sw sh : ℚ) * (20 / 100))

def imgRegionHeight (sw sh : ℤ) : ℤ := contentHeight sw sh - descHeight sw sh

/-- Lines 261-268 of create_wallpaper:
img_aspect = image.width / image.height;
img_width = int(img_height * img_aspect);
if img_width > content_width: img_width = content_width;
img_height = int(img_width / img_aspect).
Returns the (width, height) passed to image.resize. -/
def scaledSize (iw ih sw sh : ℤ) : ℤ × ℤ :=
  let aspect : ℚ := (iw : ℚ) / (ih : ℚ)
  let h0 := imgRegionHeight sw sh
  let w0 := pyInt ((h0 : ℚ) * aspect)
  if w0 > contentWidth sw then
    (contentWidth sw, pyInt ((contentWidth sw : ℚ) / aspect))
  else
    (w0, h0)

/-- Lines 273-275 of create_wallpaper: the paste position of the resized
image.  At that point the variable img_height has already been reassigned to
the final scaled height, and resized_img.height equals that same value, so
the second component adds (h - h) fdiv 2 = 0 to the border size.  Python
floor division is Int.fdiv. -/
def imgPos (iw ih sw sh : ℤ) : ℤ × ℤ :=
  let s := scaledSize iw ih sw sh
  (borderSize sw + (contentWidth sw - s.1).fdiv 2,
   borderSize sw + (s.2 - s.2).fdiv 2)

/-- Vertical gap between the top of the image region and the top of the
pasted image. -/
def imgTopMargin (iw ih sw sh : ℤ) : ℤ :=
  (imgPos iw ih sw sh).2 - borderSize sw

/-- Vertical gap between the bottom of the pasted image and the bottom of
the image region. -/
def imgBottomMargin (iw ih sw sh : ℤ) : ℤ :=
  imgRegionHeight sw sh - (scaledSize iw ih sw sh).2 - imgTopMargin iw ih sw sh

/-! ## Python string primitives

The source manipulates the caption with str.strip(), str.split() and re.sub
applied to the whitespace class.  These are embedded over the character
list of the string. -/

/-- The whitespace class of Python str.split / str.strip / the regular
expression whitespace class, restricted to ASCII. -/
def pyIsSpace (c : Char) : Bool :=
  c == ' ' || c == '\t' || c == '\n' || c == '\r' || c == '\x0b' || c == '\x0c'

/-- Helper of pySplit: scan the characters, accumulating the current word
in reverse; maximal runs of non-whitespace characters become the words. -/
def splitWordsAux : List Char → List Char → List String
  | [], acc => if acc.isEmpty then [] else [String.mk acc.reverse]
  | c :: cs, acc =>
      if pyIsSpace c then
        if acc.isEmpty then splitWordsAux cs []
        else String.mk acc.reverse :: splitWordsAux cs []
      else splitWordsAux cs (c :: acc)

/-- Python text.split() with no argument: split on runs of whitespace,
discarding empty pieces (line 350). -/
def pySplit (s : String) : List String := splitWordsAux s.data []

/-- Helper of collapseWS: the flag records whether the previous character
was part of a whitespace run whose single replacement space has already
been emitted. -/
def collapseGo : Bool → List Char → List Char
  | _, [] => []
  | inRun, c :: cs =>
      if pyIsSpace c then
        if inRun then collapseGo true cs else ' ' :: collapseGo true cs
      else c :: collapseGo false cs

/-- re.sub of one-or-more whitespace to a single space (lines 157 and 340):
every maximal whitespace run becomes one space character. -/
def collapseWS (s : String) : String := String.mk (collapseGo false s.data)

/-- Python str.strip(): remove leading and trailing whitespace. -/
def pyStrip (s : String) : String :=
  String.mk (((s.data.dropWhile pyIsSpace).reverse.dropWhile pyIsSpace).reverse)

/-- Lines 338-340 of create_wallpaper: description.strip() followed by the
whitespace collapse. -/
def normalizeCaption (s : String) : String := collapseWS (pyStrip s)

/-- The fixed default caption of fetch_image_description. -/
def defaultCaption : String := "Wikipedia Picture of the Day"

/-- Lines 156-162 of fetch_image_description: collapse whitespace runs,
then substitute the fixed default string when the result is empty. -/
def cleanDescription (s : String) : String :=
  let d := collapseWS s
  if d = "" then defaultCaption else d

/-- The join with single spaces used to rebuild a line from its words. -/
def joinWords (ws : List String) : String := String.intercalate " " ws

/-! ## Greedy word wrap (get_wrapped_text, lines 349-380)

The rendered width of a candidate line is measured by draw.textbbox against
the active font; that metric is an external collaborator and is the
parameter measure of the embedding. -/

/-- The loop of get_wrapped_text over the remaining words, carrying the
emitted lines and the words of the current line. -/
def wrapLoop (measure : String → ℤ) (maxWidth : ℤ) :
    List String → List String → List String → List String
  | [], lines, current =>
      if current.isEmpty then lines else lines ++ [joinWords current]
  | w :: ws, lines, current =>
      if measure (joinWords (current ++ [w])) > maxWidth ∧ ¬ current.isEmpty
      then wrapLoop measure maxWidth ws (lines ++ [joinWords current]) [w]
      else wrapLoop measure maxWidth ws lines (current ++ [w])

/-- get_wrapped_text (lines 349-380): greedy accumulation of words into
lines, starting a new line when the measured width of the candidate line
exceeds max_width and the current line is nonempty. -/
def get_wrapped_text (measure : String → ℤ) (text : String) (maxWidth : ℤ) :
    List String :=
  wrapLoop measure maxWidth (pySplit text) [] []

/-! ## Two-tier font selection (create_wallpaper, lines 307, 325, 342-346
and 383-388) -/

/-- Line 307: font_size = 22. -/
def font_size : ℤ := 22

/-- Line 325: the smaller tier is loaded at int(font_size * 0.85). -/
def small_font_size : ℤ := pyInt ((font_size : ℚ) * (85 / 100))

/-- Lines 337-346 and 383-388 of create_wallpaper: normalize the caption,
pick the starting tier by caption length, wrap, and re-wrap once with the
smaller tier when the wrapped block would overflow the usable height and
the base tier was in effect.  The width metric of a font tier is the
parameter measure applied to the tier size.  Returns the final tier size
and the final wrapped lines. -/
def layoutCaption (measure : ℤ → String → ℤ) (description0 : String)
    (maxWidth textAreaHeight : ℤ) : ℤ × List String :=
  let description := normalizeCaption description0
  let currentSize := if description.length > 300 then small_font_size else font_size
  let lines := get_wrapped_text (measure currentSize) description maxWidth
  if (lines.length : ℚ) * ((font_size : ℚ) * (12 / 10)) > (textAreaHeight : ℚ)
      ∧ currentSize = font_size then
    (small_font_size, get_wrapped_text (measure small_font_size) description maxWidth)
  else
    (currentSize, lines)

/-! ## Bitmap model

A decoded bitmap is a width, a height and a total pixel function.  The PIL
drawing primitives are modelled by their documented contracts: they derive
a new bitmap of the same size with some pixels repainted, and paste clips
to the canvas. -/

def Color : Type := ℤ × ℤ × ℤ

structure Bitmap where
  width : ℤ
  height : ℤ
  pixel : ℤ → ℤ → Color

def colorBlack : Color := (0, 0, 0)

def colorWhite : Color := (255, 255, 255)

def colorText : Color := (200, 200, 200)

/-- Model of PIL Image.new: a solid bitmap of the given size. -/
def imageNew (w h : ℤ) (c : Color) : Bitmap := ⟨w, h, fun _ _ => c⟩

/-- Model of PIL Image.resize: a bitmap of exactly the requested size,
sampled from the source. -/
def resizeImage (src : Bitmap) (w h : ℤ) : Bitmap :=
  ⟨w, h, fun i j => src.pixel ((i * src.width).fdiv (max w 1)) ((j * src.height).fdiv (max h 1))⟩

/-- Model of PIL Image.paste: overlay the source at (x, y), clipped to the
canvas; the canvas size is unchanged. -/
def pasteImage (dst : Bitmap) (src : Bitmap) (x y : ℤ) : Bitmap :=
  { dst with pixel := fun i j =>
      if x ≤ i ∧ i < x + src.width ∧ y ≤ j ∧ j < y + src.height then
        src.pixel (i - x) (j - y)
      else dst.pixel i j }

/-- Model of PIL ImageDraw.rectangle with an outline: repaint the border
band of the rectangle; the canvas size is unchanged. -/
def drawRectOutline (bmp : Bitmap) (left top right bottom : ℤ) (c : Color)
    (strokeWidth : ℤ) : Bitmap :=
  { bmp with pixel := fun i j =>
      if (left ≤ i ∧ i ≤ right ∧ top ≤ j ∧ j ≤ bottom) ∧
         (i < left + strokeWidth ∨ right - strokeWidth < i ∨
          j < top + strokeWidth ∨ bottom - strokeWidth < j)
      then c else bmp.pixel i j }

/-- Model of PIL ImageDraw.text: glyph geometry is external, so the painted
set is abstracted to the anchor pixel; the canvas size is unchanged. -/
def drawText (bmp : Bitmap) (x y : ℤ) (_text : String) (c : Color) : Bitmap :=
  { bmp with pixel := fun i j => if i = x ∧ j = y then c else bmp.pixel i j }

/-! ## Downloader (download_image, lines 168-215, and
create_fallback_image, lines 217-236)

One HTTP attempt is an external event: either the body decodes to a bitmap,
or the status is not 200, or decoding raises, or the request itself raises.
The fallback-asset fetch of create_fallback_image has no status check, so
its outcome is simply an optional decoded bitmap. -/

inductive AttemptResult where
  | ok (img : Bitmap)
  | badStatus (code : ℤ)
  | decodeFail
  | netError

/-- True on the three outcomes the retry loop counts as failed attempts. -/
def AttemptResult.isFailure : AttemptResult → Bool
  | .ok _ => false
  | .badStatus _ => true
  | .decodeFail => true
  | .netError => true

/-- create_fallback_image (lines 217-236): return the fetched fallback
asset when it decodes, otherwise synthesize the white 800 x 600 placeholder
with the explanatory text drawn at (50, 50). -/
def create_fallback_image (fb : Option Bitmap) : Bitmap :=
  match fb with
  | some img => img
  | none =>
      drawText (imageNew 800 600 colorWhite) 50 50
        "Failed to download Wikipedia Picture of the Day" colorBlack

/-- Line 174: max_retries = 3. -/
def max_retries : ℕ := 3

/-- Line 175: retry_delay = 2 seconds. -/
def retry_delay : ℕ := 2

/-- The run of download_image records the returned value (none models the
Python function falling off the loop and returning None), the number of
attempts consumed and the duration of every sleep executed. -/
structure DownloadTrace where
  result : Option Bitmap
  attemptsMade : ℕ
  sleeps : List ℕ

/-- The retry loop of download_image (lines 177-215), at the given attempt
index with the given remaining fuel; download_image enters it with fuel
max_retries at attempt 0, so fuel 0 is the loop running off the end.  A
success returns the decoded image; each of the three failure kinds retries
with a sleep while attempt < max_retries - 1 and otherwise returns the
fallback. -/
def downloadGo (attempts : ℕ → AttemptResult) (fb : Option Bitmap) :
    ℕ → ℕ → DownloadTrace
  | 0, _ => ⟨none, 0, []⟩
  | fuel + 1, attempt =>
      match attempts attempt with
      | .ok img => ⟨some img, 1, []⟩
      | .badStatus _ =>
          if attempt < max_retries - 1 then
            let t := downloadGo attempts fb fuel (attempt + 1)
            ⟨t.result, t.attemptsMade + 1, retry_delay :: t.sleeps⟩
          else ⟨some (create_fallback_image fb), 1, []⟩
      | .decodeFail =>
          if attempt < max_retries - 1 then
            let t := downloadGo attempts fb fuel (attempt + 1)
            ⟨t.result, t.attemptsMade + 1, retry_delay :: t.sleeps⟩
          else ⟨some (create_fallback_image fb), 1, []⟩
      | .netError =>
          if attempt < max_retries - 1 then
            let t := downloadGo attempts fb fuel (attempt + 1)
            ⟨t.result, t.attemptsMade + 1, retry_delay :: t.sleeps⟩
          else ⟨some (create_fallback_image fb), 1, []⟩

/-- download_image (lines 168-215): an empty or missing URL short-circuits
to the fallback, otherwise the retry loop runs. -/
def download_image (url : Option String) (attempts : ℕ → AttemptResult)
    (fb : Option Bitmap) : DownloadTrace :=
  match url with
  | none => ⟨some (create_fallback_image fb), 0, []⟩
  | some u =>
      if u = "" then ⟨some (create_fallback_image fb), 0, []⟩
      else downloadGo attempts fb max_retries 0

/-! ## Resolver (fetch_potd lines 31-78, fetch_image_src lines 80-109,
fetch_image_description lines 111-166)

The MediaWiki session and BeautifulSoup are external: each API call either
raises or yields the fields the code inspects. -/

inductive ApiOutcome (α : Type) where
  | raised
  | ok (val : α)

/-- The fields of the imageinfo response read by fetch_image_src: the list
of urls under imageinfo of the first page ([] when the key is absent or the
list is empty). -/
structure ImageInfoResponse where
  imageinfo : List String

/-- fetch_image_src (lines 80-109): return imageinfo[0].url of the first
page; any raised exception or a missing or empty imageinfo field yields
None.  The url is returned exactly as the API provided it. -/
def fetch_image_src (resp : ApiOutcome ImageInfoResponse) : Option String :=
  match resp with
  | .raised => none
  | .ok r =>
      match r.imageinfo with
      | [] => none
      | u :: _ => some u

/-- The outcome of the parse API call plus the BeautifulSoup extraction
sources of fetch_image_description: the optional text of the div with
class description, the texts of all paragraph elements, and the full page
text. -/
inductive DescOutcome where
  | raised
  | missingParse
  | page (descDiv : Option String) (paragraphs : List String) (allText : String)

/-- Python max(paragraphs, key=len): first element of maximal length. -/
def pyMaxByLen (x : String) : List String → String
  | [] => x
  | y :: ys => if y.length > x.length then pyMaxByLen y ys else pyMaxByLen x ys

/-- fetch_image_description (lines 111-166): the three extraction methods
in order (description div, longest paragraph, full text), then the
whitespace collapse and the default substitution; a raised exception or a
missing parse field yields the default caption. -/
def fetch_image_description (call : DescOutcome) : String :=
  match call with
  | .raised => defaultCaption
  | .missingParse => defaultCaption
  | .page descDiv paragraphs allText =>
      let d1 := match descDiv with
                | some t => pyStrip t
                | none => ""
      let d2 := if d1 = "" then
                  match paragraphs with
                  | [] => d1
                  | p :: ps => pyStrip (pyMaxByLen p ps)
                else d1
      let d3 := if d2 = "" then pyStrip allText else d2
      cleanDescription d3

/-- The fields of the first API response read by fetch_potd:
pagesPresent is the conjunction of the three checks on line 55 (query
present, pages present, pages nonempty); images is the images field of the
first page (none when the key is absent). -/
structure PotdQueryData where
  pagesPresent : Bool
  images : Option (List String)

/-- The external responses consumed by one fetch_potd run. -/
structure ResolverEnv where
  potdQuery : ApiOutcome PotdQueryData
  imageInfo : String → ApiOutcome ImageInfoResponse
  descCall : DescOutcome

/-- fetch_potd (lines 31-78): the checks of lines 55-64, then the second
and third API calls; every failure path returns the pair (None, None). -/
def fetch_potd (env : ResolverEnv) : Option String × Option String :=
  match env.potdQuery with
  | .raised => (none, none)
  | .ok d =>
      if d.pagesPresent = false then (none, none)
      else
        match d.images with
        | none => (none, none)
        | some [] => (none, none)
        | some (filename :: _) =>
            (fetch_image_src (env.imageInfo filename),
             some (fetch_image_description env.descCall))

/-- A resolver environment in which every external call raises. -/
def allFailEnv : ResolverEnv :=
  { potdQuery := .raised
    imageInfo := fun _ => .raised
    descCall := .raised }

/-- A concrete thumbnail-style URL (the fallback asset URL of line 221). -/
def thumbStyleUrl : String :=
  "https://upload.wikimedia.org/wikipedia/commons/thumb/8/80/Wikipedia-logo-v2.svg/1200px-Wikipedia-logo-v2.svg.png"

/-- Modelled from the spec: the URL post-processing described in section
4.1 applies to any thumbnail-style URL pattern, that is a URL whose path
contains the thumbnail segment; the rewrite replaces the thumbnail path by
the full-resolution path, which no longer contains that segment.  No such
rewrite exists in the source file, so only the pattern itself is needed to
settle the claim. -/
def isThumbStyle (u : String) : Prop := "/thumb/".data <:+: u.data

/-! ## Caption condensation (format_description, lines 489-506) -/

/-- The outcome of the OpenAI collaborator: either the whole call chain
raises (missing credentials included) or it returns the condensed text. -/
inductive CondenseOutcome where
  | raised
  | ok (text : String)

/-- format_description (lines 489-506): return the condensed text, and the
original description on any raised exception. -/
def format_description (outcome : CondenseOutcome) (description : String) :
    String :=
  match outcome with
  | .raised => description
  | .ok t => t

/-! ## The full composition (create_wallpaper, lines 238-418) -/

/-- create_wallpaper: black canvas at the screen size, the scaled image
pasted with its two frame rectangles, and the wrapped caption lines drawn
centered.  The font metric of a tier is the parameter measure applied to
the tier size. -/
def create_wallpaper (measure : ℤ → String → ℤ) (image : Bitmap)
    (description0 : String) (sw sh : ℤ) : Bitmap :=
  let border := borderSize sw
  let cw := contentWidth sw
  let dh := descHeight sw sh
  let wallpaper := imageNew sw sh colorBlack
  let size := scaledSize image.width image.height sw sh
  let resized := resizeImage image size.1 size.2
  let posx := border + (cw - size.1).fdiv 2
  let posy := border + (size.2 - resized.height).fdiv 2
  let frameLeft := posx - 10
  let frameTop := posy - 10
  let frameRight := posx + size.1 + 10
  let frameBottom := posy + size.2 + 10
  let w1 := drawRectOutline wallpaper (frameLeft - 1) (frameTop - 1)
              (frameRight + 1) (frameBottom + 1) (150, 150, 150) 1
  let w2 := drawRectOutline w1 frameLeft frameTop frameRight frameBottom
              (100, 100, 100) 2
  let w3 := pasteImage w2 resized posx posy
  let textAreaWidth := cw - 60
  let textAreaHeight := dh - 40
  let textAreaX := border + 30
  let textAreaY := frameBottom + 20
  let fl := layoutCaption measure description0 textAreaWidth textAreaHeight
  let lineHeight := pyInt ((fl.1 : ℚ) * (12 / 10))
  let totalTextHeight := (fl.2.length : ℤ) * lineHeight
  let startY := textAreaY + (textAreaHeight - totalTextHeight).fdiv 2
  fl.2.enum.foldl
    (fun bmp p =>
      drawText bmp (textAreaX + (textAreaWidth - measure fl.1 p.2).fdiv 2)
        (startY + (p.1 : ℤ) * lineHeight) p.2 colorText)
    w3

/-! ## Basic facts about pyInt and the geometry -/

theorem pyInt_of_nonneg {q : ℚ} (h : 0 ≤ q) : pyInt q = ⌊q⌋ := by
  simp [pyInt, h]

theorem pyInt_pos_nonneg {q : ℚ} (h : 0 < pyInt q) : 0 ≤ q := by
  by_contra hq
  push_neg at hq
  have hle : pyInt q = ⌈q⌉ := by simp [pyInt, not_le.mpr hq]
  have : (⌈q⌉ : ℤ) ≤ 0 := Int.ceil_le.mpr (by exact_mod_cast le_of_lt hq)
  omega

theorem contentWidth_pos {sw : ℤ} (hsw : 0 < sw) : 0 < contentWidth sw := by
  have h0 : (0 : ℚ) ≤ (sw : ℚ) * (5 / 100) := by positivity
  have hb : (borderSize sw : ℚ) ≤ (sw : ℚ) * (5 / 100) := by
    rw [borderSize, pyInt_of_nonneg h0]
    exact Int.floor_le _
  have hswq : (0 : ℚ) < (sw : ℚ) := by exact_mod_cast hsw
  have : (0 : ℚ) < (contentWidth sw : ℚ) := by
    rw [contentWidth]
    push_cast
    linarith
  exact_mod_cast this

/-- C1: after the height-based scale and the optional width-based re-scale,
the scaled size never exceeds the image region in either dimension, and
when the width-based re-scale fires the final width is exactly the region
width. -/
theorem scaledSize_fits (iw ih sw sh : ℤ) (hiw : 0 < iw) (hih : 0 < ih)
    (hsw : 0 < sw) :
    (scaledSize iw ih sw sh).1 ≤ contentWidth sw ∧
    (scaledSize iw ih sw sh).2 ≤ imgRegionHeight sw sh ∧
    (pyInt ((imgRegionHeight sw sh : ℚ) * ((iw : ℚ) / (ih : ℚ))) >
        contentWidth sw →
      (scaledSize iw ih sw sh).1 = contentWidth sw) := by
  have hcw : 0 < contentWidth sw := contentWidth_pos hsw
  have ha : (0 : ℚ) < (iw : ℚ) / (ih : ℚ) := by
    apply div_pos <;> exact_mod_cast ‹_›
  unfold scaledSize
  set a : ℚ := (iw : ℚ) / (ih : ℚ) with ha_def
  set h0 : ℤ := imgRegionHeight sw sh with hh0
  by_cases hcase : pyInt ((h0 : ℚ) * a) > contentWidth sw
  · rw [if_pos hcase]
    refine ⟨le_refl _, ?_, fun _ => rfl⟩
    -- the rescaled height int(content_width / aspect) stays within h0
    have hw0pos : 0 < pyInt ((h0 : ℚ) * a) := lt_trans hcw hcase
    have hq : (0 : ℚ) ≤ (h0 : ℚ) * a := pyInt_pos_nonneg hw0pos
    have hfl : pyInt ((h0 : ℚ) * a) = ⌊(h0 : ℚ) * a⌋ := pyInt_of_nonneg hq
    have hlt : (contentWidth sw : ℚ) < (h0 : ℚ) * a := by
      have hc : contentWidth sw < ⌊(h0 : ℚ) * a⌋ := hfl ▸ hcase
      have hc2 : ((contentWidth sw : ℤ) : ℚ) < (⌊(h0 : ℚ) * a⌋ : ℚ) := by
        exact_mod_cast hc
      have := Int.floor_le ((h0 : ℚ) * a)
      linarith
    have hdiv : (contentWidth sw : ℚ) / a < (h0 : ℚ) :=
      (div_lt_iff₀ ha).mpr hlt
    have hdnn : (0 : ℚ) ≤ (contentWidth sw : ℚ) / a := by
      apply div_nonneg _ (le_of_lt ha)
      exact_mod_cast le_of_lt hcw
    rw [pyInt_of_nonneg hdnn]
    have : ⌊(contentWidth sw : ℚ) / a⌋ < h0 := Int.floor_lt.mpr hdiv
    omega
  · rw [if_neg hcase]
    exact ⟨le_of_not_lt hcase, le_refl _, fun h => absurd h hcase⟩

/-- Witness for scaledSize_fits at a 4:3 source image on a 1920 x 1080
canvas. -/
theorem scaledSize_fits_witness :
    (0 : ℤ) < 4 ∧ (0 : ℤ) < 3 ∧ (0 : ℤ) < 1920 ∧
    ((scaledSize 4 3 1920 1080).1 ≤ contentWidth 1920 ∧
     (scaledSize 4 3 1920 1080).2 ≤ imgRegionHeight 1920 1080 ∧
     (pyInt ((imgRegionHeight 1920 1080 : ℚ) * ((4 : ℚ) / (3 : ℚ))) >
         contentWidth 1920 →
       (scaledSize 4 3 1920 1080).1 = contentWidth 1920)) :=
  ⟨by decide, by decide, by decide,
   scaledSize_fits 4 3 1920 1080 (by decide) (by decide) (by decide)⟩

/-- C4 evidence: on a 4000 x 1000 source image and a 1920 x 1080 canvas
the width-based re-scale fires (final size 1728 x 432), yet line 275
computes the vertical offset from (img_height - resized_img.height), two
names bound to the same value, so the image is pasted at the very top of
the content area: the top margin inside the image region is 0 while the
bottom margin is 279, refuting vertical centering up to rounding. -/
theorem imgPos_not_vertically_centered :
    scaledSize 4000 1000 1920 1080 = (1728, 432) ∧
    imgTopMargin 4000 1000 1920 1080 = 0 ∧
    imgBottomMargin 4000 1000 1920 1080 = 279 := by
  have hb : borderSize 1920 = 96 := by
    unfold borderSize pyInt
    rw [if_pos (by norm_num)]
    norm_num
  have hcw : contentWidth 1920 = 1728 := by
    rw [contentWidth, hb]; decide
  have hch : contentHeight 1920 1080 = 888 := by
    rw [contentHeight, hb]; decide
  have hdh : descHeight 1920 1080 = 177 := by
    unfold descHeight pyInt
    rw [hch, if_pos (by norm_num)]
    norm_num
  have hrh : imgRegionHeight 1920 1080 = 711 := by
    rw [imgRegionHeight, hch, hdh]; decide
  have hs : scaledSize 4000 1000 1920 1080 = (1728, 432) := by
    simp only [scaledSize, hrh, hcw]
    rw [pyInt_of_nonneg (by norm_num), pyInt_of_nonneg (by norm_num)]
    norm_num
  refine ⟨hs, ?_, ?_⟩
  · rw [imgTopMargin]
    simp [imgPos, hs, hb]
  · rw [imgBottomMargin, imgTopMargin, hrh, hs]
    simp [imgPos, hs, hb]

/-! ## C2: wrapped lines stay within the usable width -/

theorem joinWords_singleton (w : String) : joinWords [w] = w := rfl

theorem wrapLoop_fits (measure : String → ℤ) (maxWidth : ℤ) :
    ∀ ws lines current : List String,
      (∀ l ∈ lines, measure l ≤ maxWidth) →
      (current ≠ [] → measure (joinWords current) ≤ maxWidth) →
      (∀ w ∈ ws, measure w ≤ maxWidth) →
      ∀ l ∈ wrapLoop measure maxWidth ws lines current, measure l ≤ maxWidth := by
  intro ws
  induction ws with
  | nil =>
    intro lines current hl hc _ l hmem
    rw [wrapLoop] at hmem
    cases current with
    | nil => simpa using hl l (by simpa using hmem)
    | cons x xs =>
      rw [if_neg (by simp)] at hmem
      rcases List.mem_append.mp hmem with h | h
      · exact hl l h
      · rw [List.mem_singleton.mp h]
        exact hc (by simp)
  | cons w ws ih =>
    intro lines current hl hc hw l hmem
    rw [wrapLoop] at hmem
    by_cases hcond :
        measure (joinWords (current ++ [w])) > maxWidth ∧ ¬ current.isEmpty
    · rw [if_pos hcond] at hmem
      refine ih _ _ ?_ ?_ (fun x hx => hw x (List.mem_cons_of_mem _ hx)) l hmem
      · intro x hx
        rcases List.mem_append.mp hx with h | h
        · exact hl x h
        · rw [List.mem_singleton.mp h]
          apply hc
          intro hnil
          rw [hnil] at hcond
          simpa using hcond.2
      · intro _
        rw [joinWords_singleton]
        exact hw w (List.mem_cons_self ..)
    · rw [if_neg hcond] at hmem
      refine ih _ _ hl ?_ (fun x hx => hw x (List.mem_cons_of_mem _ hx)) l hmem
      intro _
      cases current with
      | nil =>
        rw [List.nil_append, joinWords_singleton]
        exact hw w (List.mem_cons_self ..)
      | cons x xs =>
        rcases not_and_or.mp hcond with h | h
        · exact le_of_not_lt h
        · simp at h

/-- C2 (as amended): if every single word of the caption measures within
max_width, then every line produced by get_wrapped_text measures within
max_width. -/
theorem get_wrapped_text_fits (measure : String → ℤ) (text : String)
    (maxWidth : ℤ)
    (hw : ∀ w ∈ pySplit text, measure w ≤ maxWidth) :
    ∀ line ∈ get_wrapped_text measure text maxWidth,
      measure line ≤ maxWidth :=
  wrapLoop_fits measure maxWidth (pySplit text) [] []
    (by intro l h; simp at h) (fun h => absurd rfl h) hw

/-- C2 counterexample: with the character-count metric and usable width 3,
the single unbreakable ten-character word is emitted as a line measuring
10 > 3, so the unconditional claim fails. -/
theorem get_wrapped_text_overflow_cex :
    get_wrapped_text (fun s => (s.length : ℤ)) "abcdefghij" 3
      = ["abcdefghij"] ∧
    ¬ (∀ line ∈ get_wrapped_text (fun s => (s.length : ℤ)) "abcdefghij" 3,
        ((line.length : ℤ)) ≤ 3) := by
  constructor
  · rfl
  · decide

/-- Witness for get_wrapped_text_fits: two words of width 2 at usable
width 2. -/
theorem get_wrapped_text_fits_witness :
    (∀ w ∈ pySplit "ab cd", ((w.length : ℤ)) ≤ 2) ∧
    (∀ line ∈ get_wrapped_text (fun s => (s.length : ℤ)) "ab cd" 2,
      ((line.length : ℤ)) ≤ 2) :=
  ⟨by decide,
   get_wrapped_text_fits (fun s => (s.length : ℤ)) "ab cd" 2 (by decide)⟩

/-! ## C3: two-tier font selection -/

theorem small_font_size_eq : small_font_size = 18 := by
  unfold small_font_size font_size pyInt
  rw [if_pos (by norm_num)]
  norm_num

/-- C3: the smaller tier is int(0.85 * 22) = 18; captions longer than 300
characters after normalization start (and stay) at the smaller tier;
otherwise the base tier 22 is used, re-wrapping with the smaller tier
exactly once when the base wrap times the 1.2-times-font-size line height
exceeds the usable height, and not otherwise. -/
theorem layoutCaption_two_tier (measure : ℤ → String → ℤ) (d0 : String)
    (mw th : ℤ) :
    small_font_size = 18 ∧ font_size = 22 ∧
    ((normalizeCaption d0).length > 300 →
      layoutCaption measure d0 mw th =
        (small_font_size,
         get_wrapped_text (measure small_font_size) (normalizeCaption d0) mw)) ∧
    ((normalizeCaption d0).length ≤ 300 →
      (((get_wrapped_text (measure font_size) (normalizeCaption d0) mw).length : ℚ) *
          ((font_size : ℚ) * (12 / 10)) > (th : ℚ) →
        layoutCaption measure d0 mw th =
          (small_font_size,
           get_wrapped_text (measure small_font_size) (normalizeCaption d0) mw)) ∧
      (((get_wrapped_text (measure font_size) (normalizeCaption d0) mw).length : ℚ) *
          ((font_size : ℚ) * (12 / 10)) ≤ (th : ℚ) →
        layoutCaption measure d0 mw th =
          (font_size,
           get_wrapped_text (measure font_size) (normalizeCaption d0) mw))) := by
  refine ⟨small_font_size_eq, rfl, ?_, ?_⟩
  · intro hlong
    have hne : ¬ ((normalizeCaption d0).length ≤ 300) := by omega
    simp only [layoutCaption, if_pos hlong]
    rw [if_neg]
    rintro ⟨-, habsurd⟩
    rw [small_font_size_eq] at habsurd
    exact absurd habsurd (by decide)
  · intro hshort
    have hnotlong : ¬ ((normalizeCaption d0).length > 300) := by omega
    constructor
    · intro hover
      simp only [layoutCaption, if_neg hnotlong]
      rw [if_pos ⟨hover, trivial⟩]
    · intro hfits
      simp only [layoutCaption, if_neg hnotlong]
      rw [if_neg]
      rintro ⟨habsurd, -⟩
      exact absurd habsurd (not_lt.mpr hfits)

/-- Witness for layoutCaption_two_tier: a two-character caption with the
zero width metric wraps to one line that fits a usable height of 100, so
the base tier 22 survives. -/
theorem layoutCaption_two_tier_witness :
    (normalizeCaption "hi").length ≤ 300 ∧
    ((get_wrapped_text ((fun _ _ => (0 : ℤ)) font_size) (normalizeCaption "hi") 10).length : ℚ) *
        ((font_size : ℚ) * (12 / 10)) ≤ ((100 : ℤ) : ℚ) ∧
    layoutCaption (fun _ _ => (0 : ℤ)) "hi" 10 100 =
      (font_size,
       get_wrapped_text ((fun _ _ => (0 : ℤ)) font_size) (normalizeCaption "hi") 10) := by
  have hlen : (normalizeCaption "hi").length ≤ 300 := by decide
  have hlines :
      get_wrapped_text ((fun _ _ => (0 : ℤ)) font_size) (normalizeCaption "hi") 10 = ["hi"] := by
    decide
  have hfits :
      ((get_wrapped_text ((fun _ _ => (0 : ℤ)) font_size) (normalizeCaption "hi") 10).length : ℚ) *
        ((font_size : ℚ) * (12 / 10)) ≤ ((100 : ℤ) : ℚ) := by
    rw [hlines]
    norm_num [font_size]
  exact ⟨hlen, hfits,
    ((layoutCaption_two_tier (fun _ _ => (0 : ℤ)) "hi" 10 100).2.2.2 hlen).2 hfits⟩

/-! ## C7: caption whitespace normalization -/

theorem getLast_mem_of_getLast?_eq {α : Type} :
    ∀ {l : List α} {a : α}, l.getLast? = some a → a ∈ l := by
  intro l
  induction l with
  | nil => intro a h; simp at h
  | cons x xs ih =>
    intro a h
    cases xs with
    | nil => simp at h; simp [h]
    | cons y ys =>
      rw [List.getLast?_cons_cons] at h
      exact List.mem_cons_of_mem _ (ih h)

theorem getLast?_cons_of_ne_nil {α : Type} (a : α) {l : List α}
    (h : l ≠ []) : (a :: l).getLast? = l.getLast? := by
  cases l with
  | nil => exact absurd rfl h
  | cons y ys => exact List.getLast?_cons_cons

theorem collapseGo_space_char :
    ∀ (l : List Char) (flag : Bool), ∀ c ∈ collapseGo flag l,
      pyIsSpace c = true → c = ' ' := by
  intro l
  induction l with
  | nil => intro flag c hc; simp [collapseGo] at hc
  | cons c0 cs ih =>
    intro flag c hc hsp
    rw [collapseGo] at hc
    by_cases hs0 : pyIsSpace c0
    · rw [if_pos hs0] at hc
      cases flag with
      | true => exact ih true c (by simpa using hc) hsp
      | false =>
        rw [if_neg (by simp)] at hc
        rcases List.mem_cons.mp hc with h | h
        · exact h
        · exact ih true c h hsp
    · rw [if_neg hs0] at hc
      rcases List.mem_cons.mp hc with h | h
      · rw [h] at hsp; exact absurd hsp hs0
      · exact ih false c h hsp

theorem collapseGo_true_head :
    ∀ (l : List Char) (c : Char), (collapseGo true l).head? = some c →
      pyIsSpace c = false := by
  intro l
  induction l with
  | nil => intro c h; simp [collapseGo] at h
  | cons c0 cs ih =>
    intro c h
    rw [collapseGo] at h
    by_cases hs0 : pyIsSpace c0
    · rw [if_pos hs0, if_pos rfl] at h
      exact ih c h
    · rw [if_neg hs0] at h
      simp only [List.head?_cons, Option.some.injEq] at h
      rw [← h]
      exact eq_false_of_ne_true hs0

theorem collapseGo_chain :
    ∀ (l : List Char) (flag : Bool),
      List.Chain' (fun a b => ¬(pyIsSpace a = true ∧ pyIsSpace b = true))
        (collapseGo flag l) := by
  intro l
  induction l with
  | nil => intro flag; simp [collapseGo]
  | cons c0 cs ih =>
    intro flag
    rw [collapseGo]
    by_cases hs0 : pyIsSpace c0
    · rw [if_pos hs0]
      cases flag with
      | true => exact ih true
      | false =>
        rw [if_neg (by simp)]
        refine List.chain'_cons'.mpr ⟨?_, ih true⟩
        intro b hb
        intro hco
        rw [collapseGo_true_head cs b hb] at hco
        exact absurd hco.2 (by simp)
    · rw [if_neg hs0]
      refine List.chain'_cons'.mpr ⟨?_, ih false⟩
      intro b _ hco
      exact absurd hco.1 hs0

theorem collapseGo_ne_nil :
    ∀ (l : List Char) (flag : Bool) (c : Char), c ∈ l →
      pyIsSpace c = false → collapseGo flag l ≠ [] := by
  intro l
  induction l with
  | nil => intro flag c hc; simp at hc
  | cons c0 cs ih =>
    intro flag c hc hcf
    rw [collapseGo]
    by_cases hs0 : pyIsSpace c0
    · rw [if_pos hs0]
      have hcs : c ∈ cs := by
        rcases List.mem_cons.mp hc with h | h
        · rw [h] at hcf; rw [hcf] at hs0; exact absurd hs0 (by simp)
        · exact h
      cases flag with
      | true => exact ih true c hcs hcf
      | false => rw [if_neg (by simp)]; simp
    · rw [if_neg hs0]; simp

theorem collapseGo_getLast :
    ∀ (l : List Char) (flag : Bool),
      (∀ c, l.getLast? = some c → pyIsSpace c = false) →
      ∀ c, (collapseGo flag l).getLast? = some c → pyIsSpace c = false := by
  intro l
  induction l with
  | nil => intro flag _ c h; simp [collapseGo] at h
  | cons c0 cs ih =>
    intro flag hlast c hc
    cases cs with
    | nil =>
      have h0 : pyIsSpace c0 = false := hlast c0 (by simp)
      rw [collapseGo, if_neg (by simp [h0])] at hc
      simp only [collapseGo, List.getLast?_singleton, Option.some.injEq] at hc
      rw [← hc]; exact h0
    | cons c1 cs2 =>
      have htail : ∀ x, (c1 :: cs2).getLast? = some x → pyIsSpace x = false := by
        intro x hx
        exact hlast x (by rw [List.getLast?_cons_cons]; exact hx)
      obtain ⟨cl, hcl⟩ : ∃ x, (c1 :: cs2).getLast? = some x := by
        cases h : (c1 :: cs2).getLast? with
        | none => rw [List.getLast?_eq_none_iff] at h; simp at h
        | some x => exact ⟨x, rfl⟩
      have hclf : pyIsSpace cl = false := htail cl hcl
      have hclmem : cl ∈ c1 :: cs2 := getLast_mem_of_getLast?_eq hcl
      rw [collapseGo] at hc
      by_cases hs0 : pyIsSpace c0
      · rw [if_pos hs0] at hc
        cases flag with
        | true => exact ih true htail c hc
        | false =>
          rw [if_neg (by simp)] at hc
          rw [getLast?_cons_of_ne_nil _
            (collapseGo_ne_nil (c1 :: cs2) true cl hclmem hclf)] at hc
          exact ih true htail c hc
      · rw [if_neg hs0] at hc
        rw [getLast?_cons_of_ne_nil _
          (collapseGo_ne_nil (c1 :: cs2) false cl hclmem hclf)] at hc
        exact ih false htail c hc

theorem dropWhile_head_nonspace :
    ∀ (l : List Char) (c : Char),
      (l.dropWhile pyIsSpace).head? = some c → pyIsSpace c = false := by
  intro l
  induction l with
  | nil => intro c h; simp at h
  | cons c0 cs ih =>
    intro c h
    rw [List.dropWhile_cons] at h
    by_cases hs0 : pyIsSpace c0
    · rw [if_pos hs0] at h; exact ih c h
    · rw [if_neg hs0] at h
      simp only [List.head?_cons, Option.some.injEq] at h
      rw [← h]; exact eq_false_of_ne_true hs0

theorem dropWhile_getLast_of_ne_nil :
    ∀ (l : List Char), l.dropWhile pyIsSpace ≠ [] →
      (l.dropWhile pyIsSpace).getLast? = l.getLast? := by
  intro l
  induction l with
  | nil => intro h; simp at h
  | cons c0 cs ih =>
    intro h
    rw [List.dropWhile_cons] at h ⊢
    by_cases hs0 : pyIsSpace c0
    · rw [if_pos hs0] at h ⊢
      have hcs : cs ≠ [] := by
        intro hnil; rw [hnil] at h; simp at h
      rw [ih h, getLast?_cons_of_ne_nil _ hcs]
    · rw [if_neg hs0]

theorem pyStrip_head_nonspace (s : String) :
    ∀ c, (pyStrip s).data.head? = some c → pyIsSpace c = false := by
  intro c hc
  rw [pyStrip] at hc
  rw [List.head?_reverse] at hc
  set Y := (s.data.dropWhile pyIsSpace).reverse with hY
  by_cases hZ : Y.dropWhile pyIsSpace = []
  · rw [hZ] at hc; simp at hc
  · rw [dropWhile_getLast_of_ne_nil Y hZ, hY, List.getLast?_reverse] at hc
    exact dropWhile_head_nonspace _ c hc

theorem pyStrip_getLast_nonspace (s : String) :
    ∀ c, (pyStrip s).data.getLast? = some c → pyIsSpace c = false := by
  intro c hc
  rw [pyStrip] at hc
  rw [List.getLast?_reverse] at hc
  exact dropWhile_head_nonspace _ c hc

theorem collapseGo_false_head :
    ∀ (l : List Char),
      (∀ c, l.head? = some c → pyIsSpace c = false) →
      ∀ c, (collapseGo false l).head? = some c → pyIsSpace c = false := by
  intro l hl c hc
  cases l with
  | nil => simp [collapseGo] at hc
  | cons c0 cs =>
    have h0 : pyIsSpace c0 = false := hl c0 (by simp)
    rw [collapseGo, if_neg (by simp [h0])] at hc
    simp only [List.head?_cons, Option.some.injEq] at hc
    rw [← hc]; exact h0

/-- C7: the caption cleanup collapses every whitespace run to a single
space and trims: the concrete caption of the claim normalizes to the
expected string, every whitespace character of a normalized caption is a
plain space, no two adjacent characters are both whitespace, the result
neither starts nor ends with whitespace, and the empty-after-collapse case
is replaced by the fixed default caption. -/
theorem caption_normalization (s : String) :
    normalizeCaption "a   b\n\nc" = "a b c" ∧
    (∀ c ∈ (normalizeCaption s).data, pyIsSpace c = true → c = ' ') ∧
    List.Chain' (fun a b => ¬(pyIsSpace a = true ∧ pyIsSpace b = true))
      (normalizeCaption s).data ∧
    (∀ c, (normalizeCaption s).data.head? = some c → pyIsSpace c = false) ∧
    (∀ c, (normalizeCaption s).data.getLast? = some c → pyIsSpace c = false) ∧
    (∀ t : String, collapseWS t = "" → cleanDescription t = defaultCaption) ∧
    (∀ t : String, collapseWS t ≠ "" → cleanDescription t = collapseWS t) := by
  refine ⟨by decide, ?_, ?_, ?_, ?_, ?_, ?_⟩
  · exact fun c hc => collapseGo_space_char (pyStrip s).data false c hc
  · exact collapseGo_chain (pyStrip s).data false
  · exact collapseGo_false_head (pyStrip s).data (pyStrip_head_nonspace s)
  · exact collapseGo_getLast (pyStrip s).data false (pyStrip_getLast_nonspace s)
  · intro t h; simp [cleanDescription, h]
  · intro t h; simp [cleanDescription, h]

/-- Witness for caption_normalization: the empty caption collapses to the
empty string and is replaced by the default caption. -/
theorem caption_normalization_witness :
    collapseWS "" = "" ∧ cleanDescription "" = defaultCaption :=
  ⟨rfl, (caption_normalization "x").2.2.2.2.2.1 "" rfl⟩

/-! ## C5: the downloader is total and retry-bounded -/

theorem downloadGo_spec (attempts : ℕ → AttemptResult) (fb : Option Bitmap) :
    ∀ fuel attempt : ℕ, fuel + attempt = max_retries → attempt < max_retries →
      (downloadGo attempts fb fuel attempt).result.isSome = true ∧
      (downloadGo attempts fb fuel attempt).attemptsMade ≤ fuel ∧
      (∀ d ∈ (downloadGo attempts fb fuel attempt).sleeps, d = retry_delay) ∧
      (downloadGo attempts fb fuel attempt).sleeps.length + 1 =
        (downloadGo attempts fb fuel attempt).attemptsMade := by
  intro fuel
  induction fuel with
  | zero =>
    intro attempt hsum hlt
    rw [max_retries] at hsum hlt
    omega
  | succ fuel ih =>
    intro attempt hsum hlt
    cases hA : attempts attempt with
    | ok img =>
      simp only [downloadGo, hA]
      refine ⟨rfl, Nat.le_add_left 1 fuel, ?_, rfl⟩
      intro d hd
      exact absurd hd (by simp)
    | badStatus code =>
      by_cases hstep : attempt < max_retries - 1
      · obtain ⟨h1, h2, h3, h4⟩ := ih (attempt + 1) (by omega) (by rw [max_retries] at *; omega)
        simp only [downloadGo, hA, if_pos hstep]
        refine ⟨h1, Nat.add_le_add_right h2 1, ?_, congrArg (fun n => n + 1) h4⟩
        intro d hd
        rcases List.mem_cons.mp hd with hh | hh
        · exact hh
        · exact h3 d hh
      · simp only [downloadGo, hA, if_neg hstep]
        refine ⟨rfl, Nat.le_add_left 1 fuel, ?_, rfl⟩
        intro d hd
        exact absurd hd (by simp)
    | decodeFail =>
      by_cases hstep : attempt < max_retries - 1
      · obtain ⟨h1, h2, h3, h4⟩ := ih (attempt + 1) (by omega) (by rw [max_retries] at *; omega)
        simp only [downloadGo, hA, if_pos hstep]
        refine ⟨h1, Nat.add_le_add_right h2 1, ?_, congrArg (fun n => n + 1) h4⟩
        intro d hd
        rcases List.mem_cons.mp hd with hh | hh
        · exact hh
        · exact h3 d hh
      · simp only [downloadGo, hA, if_neg hstep]
        refine ⟨rfl, Nat.le_add_left 1 fuel, ?_, rfl⟩
        intro d hd
        exact absurd hd (by simp)
    | netError =>
      by_cases hstep : attempt < max_retries - 1
      · obtain ⟨h1, h2, h3, h4⟩ := ih (attempt + 1) (by omega) (by rw [max_retries] at *; omega)
        simp only [downloadGo, hA, if_pos hstep]
        refine ⟨h1, Nat.add_le_add_right h2 1, ?_, congrArg (fun n => n + 1) h4⟩
        intro d hd
        rcases List.mem_cons.mp hd with hh | hh
        · exact hh
        · exact h3 d hh
      · simp only [downloadGo, hA, if_neg hstep]
        refine ⟨rfl, Nat.le_add_left 1 fuel, ?_, rfl⟩
        intro d hd
        exact absurd hd (by simp)

theorem downloadGo_failure_blind (attempts attempts2 : ℕ → AttemptResult)
    (fb : Option Bitmap)
    (h : ∀ i, attempts i = attempts2 i ∨
      ((attempts i).isFailure = true ∧ (attempts2 i).isFailure = true)) :
    ∀ fuel attempt : ℕ,
      downloadGo attempts fb fuel attempt =
        downloadGo attempts2 fb fuel attempt := by
  intro fuel
  induction fuel with
  | zero => intro attempt; rfl
  | succ fuel ih =>
    intro attempt
    rcases h attempt with heq | ⟨hf1, hf2⟩
    · rw [downloadGo, downloadGo, heq]
      cases attempts2 attempt <;> first | rfl | simp only [ih]
    · rw [downloadGo, downloadGo]
      cases hA : attempts attempt <;> cases hB : attempts2 attempt <;>
        rw [hA] at hf1 <;> rw [hB] at hf2 <;>
        simp only [AttemptResult.isFailure, Bool.false_eq_true] at hf1 hf2 <;>
        simp only [ih]

/-- C5: download_image always returns a bitmap (never the fall-off-the-loop
None), consumes at most max_retries attempts, sleeps only the fixed
retry_delay and at most max_retries - 1 times, and its entire behavior is
unchanged when failed attempts are exchanged for failures of another kind
(a non-200 status, a decode failure and a request exception are handled
identically). -/
theorem download_image_resilient (url : Option String)
    (attempts : ℕ → AttemptResult) (fb : Option Bitmap) :
    (download_image url attempts fb).result.isSome = true ∧
    (download_image url attempts fb).attemptsMade ≤ max_retries ∧
    (∀ d ∈ (download_image url attempts fb).sleeps, d = retry_delay) ∧
    (download_image url attempts fb).sleeps.length ≤ max_retries - 1 ∧
    (∀ attempts2 : ℕ → AttemptResult,
      (∀ i, attempts i = attempts2 i ∨
        ((attempts i).isFailure = true ∧ (attempts2 i).isFailure = true)) →
      download_image url attempts fb = download_image url attempts2 fb) := by
  match url with
  | none =>
    exact ⟨rfl, by simp [download_image, max_retries], by simp [download_image],
      by simp [download_image], fun _ _ => rfl⟩
  | some u =>
    by_cases hu : u = ""
    · rw [download_image, if_pos hu]
      exact ⟨rfl, by simp [max_retries], by simp, by simp,
        fun a2 _ => by rw [download_image, if_pos hu]⟩
    · rw [download_image, if_neg hu]
      obtain ⟨h1, h2, h3, h4⟩ :=
        downloadGo_spec attempts fb max_retries 0 (by omega) (by simp [max_retries])
      refine ⟨h1, h2, h3, by omega, ?_⟩
      intro a2 ha2
      rw [download_image, if_neg hu]
      exact downloadGo_failure_blind attempts a2 fb ha2 max_retries 0

/-- Witness for download_image_resilient: three 404 attempts with a failed
fallback fetch still return a bitmap after two 2-second sleeps, and the run
is identical when every 404 is exchanged for a decode failure. -/
theorem download_image_resilient_witness :
    (download_image (some "u") (fun _ => AttemptResult.badStatus 404) none).result.isSome
      = true ∧
    download_image (some "u") (fun _ => AttemptResult.badStatus 404) none =
      download_image (some "u") (fun _ => AttemptResult.decodeFail) none :=
  ⟨(download_image_resilient (some "u") (fun _ => AttemptResult.badStatus 404) none).1,
   (download_image_resilient (some "u") (fun _ => AttemptResult.badStatus 404) none).2.2.2.2
     (fun _ => AttemptResult.decodeFail) (fun _ => Or.inr ⟨rfl, rfl⟩)⟩

/-! ## C6: the resolver on total failure -/

/-- C6 counterexample: when every external call raises, fetch_potd returns
(none, none): the caption component is none, not a descriptive placeholder
string. -/
theorem fetch_potd_all_fail_cex :
    fetch_potd allFailEnv = (none, none) ∧
    ∀ c : String, (fetch_potd allFailEnv).2 ≠ some c := by
  refine ⟨rfl, ?_⟩
  intro c h
  exact Option.noConfusion h

/-- C6 (as amended): fetch_potd never raises (it is total in the external
outcomes) and on every failure path of the API cascade it returns the
sentinel (none, none); the descriptive placeholder caption is substituted
only further downstream by main. -/
theorem fetch_potd_failure_sentinel (env : ResolverEnv)
    (h : env.potdQuery = ApiOutcome.raised ∨
      ∃ d, env.potdQuery = ApiOutcome.ok d ∧
        (d.pagesPresent = false ∨ d.images = none ∨ d.images = some [])) :
    fetch_potd env = (none, none) := by
  rcases h with h | ⟨d, hd, hfail⟩
  · rw [fetch_potd, h]
  · rw [fetch_potd, hd]
    rcases hfail with h1 | h2 | h3
    · simp [h1]
    · simp [h2]
    · rcases h4 : d.pagesPresent with _ | _ <;> simp [h3, h4]

/-- Witness for fetch_potd_failure_sentinel at the all-raising
environment. -/
theorem fetch_potd_failure_sentinel_witness :
    (allFailEnv.potdQuery = ApiOutcome.raised ∨
      ∃ d, allFailEnv.potdQuery = ApiOutcome.ok d ∧
        (d.pagesPresent = false ∨ d.images = none ∨ d.images = some [])) ∧
    fetch_potd allFailEnv = (none, none) :=
  ⟨Or.inl rfl, fetch_potd_failure_sentinel allFailEnv (Or.inl rfl)⟩

/-! ## C8: no thumbnail URL rewriting exists in this iteration -/

/-- C8 counterexample: for a concrete thumbnail-style URL the resolver
hands the Downloader exactly the URL the imageinfo API returned: the
handed-over URL still contains the thumbnail path segment, so no rewrite
to the full-resolution path happened. -/
theorem fetch_image_src_keeps_thumb_cex :
    isThumbStyle thumbStyleUrl ∧
    fetch_image_src (ApiOutcome.ok ⟨[thumbStyleUrl]⟩) = some thumbStyleUrl ∧
    isThumbStyle ((fetch_image_src (ApiOutcome.ok ⟨[thumbStyleUrl]⟩)).getD "") := by
  refine ⟨?_, rfl, ?_⟩ <;> (unfold isThumbStyle; decide)

/-- C8 (as amended): fetch_image_src performs no URL post-processing at
all: it returns the first imageinfo url exactly as received, and none when
the call raised or the imageinfo field is missing or empty. -/
theorem fetch_image_src_passthrough (u : String) (rest : List String) :
    fetch_image_src (ApiOutcome.ok ⟨u :: rest⟩) = some u ∧
    fetch_image_src ApiOutcome.raised = none ∧
    fetch_image_src (ApiOutcome.ok ⟨[]⟩) = none :=
  ⟨rfl, rfl, rfl⟩

/-! ## C9: the condensation step fails open -/

/-- C9: format_description fails open: on any raised exception of the
OpenAI collaborator (absent credentials included) the original caption is
returned unchanged, and in every case the result is either the original
caption or the collaborator text, so nothing propagates. -/
theorem format_description_fail_open (d : String) :
    format_description CondenseOutcome.raised d = d ∧
    (∀ o : CondenseOutcome, format_description o d = d ∨
      ∃ t, o = CondenseOutcome.ok t ∧ format_description o d = t) := by
  refine ⟨rfl, ?_⟩
  intro o
  cases o with
  | raised => exact Or.inl rfl
  | ok t => exact Or.inr ⟨t, rfl, rfl⟩

/-- Witness for format_description_fail_open at a concrete caption. -/
theorem format_description_fail_open_witness :
    format_description CondenseOutcome.raised "caption" = "caption" :=
  (format_description_fail_open "caption").1

/-! ## C10: the composite always has the canvas size -/

theorem foldl_dims_invariant {α : Type} (f : Bitmap → α → Bitmap)
    (hf : ∀ b a, (f b a).width = b.width ∧ (f b a).height = b.height) :
    ∀ (l : List α) (b : Bitmap),
      (l.foldl f b).width = b.width ∧ (l.foldl f b).height = b.height := by
  intro l
  induction l with
  | nil => intro b; exact ⟨rfl, rfl⟩
  | cons x xs ih =>
    intro b
    rw [List.foldl_cons]
    exact ⟨(ih (f b x)).1.trans (hf b x).1, (ih (f b x)).2.trans (hf b x).2⟩

/-- C10: the composite returned by create_wallpaper has exactly the canvas
size: pasting the scaled image, drawing the two frames and drawing the
caption lines never change the canvas dimensions. -/
theorem create_wallpaper_dims (measure : ℤ → String → ℤ) (image : Bitmap)
    (d0 : String) (sw sh : ℤ) :
    (create_wallpaper measure image d0 sw sh).width = sw ∧
    (create_wallpaper measure image d0 sw sh).height = sh := by
  simp only [create_wallpaper]
  constructor
  · refine (foldl_dims_invariant _ ?_ _ _).1
    exact fun b a => ⟨rfl, rfl⟩
  · refine (foldl_dims_invariant _ ?_ _ _).2
    exact fun b a => ⟨rfl, rfl⟩

end WikiWallpaper
